import Mathlib


/-!
Verification of the EIS analysis core of the Battery Labs cell-characterization
repository (ThinkClock_Assignment_1).

The repository ships the frontend (Next.js) and a README; the numerical backend
(`impedance_service.py` with the spectrum parser, circuit model, fitter, Bode
projection and SoH evaluation) is referenced by the frontend API client but its
code is not part of the source tree.  Components of the missing backend are
modelled from the specification (each such definition carries a doc comment
starting with `Modelled from the spec:`); everything else is embedded directly
from the frontend TypeScript sources.
-/

/-! ## Definitions -/

/-- Splits a character list on a separator, keeping empty segments. -/
def splitOnChar (sep : Char) : List Char → List (List Char)
  | [] => [[]]
  | c :: cs =>
    let r := splitOnChar sep cs
    if c == sep then [] :: r
    else
      match r with
      | [] => [[c]]
      | f :: rest => (c :: f) :: rest

/-- Whitespace recognised when trimming CSV cells. -/
def isSpaceChar (c : Char) : Bool :=
  c == ' ' || c == '\t' || c == '\r'

/-- Removes leading and trailing whitespace from a character list. -/
def trimChars (cs : List Char) : List Char :=
  ((cs.dropWhile isSpaceChar).reverse.dropWhile isSpaceChar).reverse

/-- Lower-cases an ASCII letter, leaving other characters unchanged. -/
def lowerChar (c : Char) : Char :=
  if 65 ≤ c.toNat ∧ c.toNat ≤ 90 then Char.ofNat (c.toNat + 32) else c

/-- Numeric value of an ASCII digit. -/
def digitVal? (c : Char) : Option ℕ :=
  if 48 ≤ c.toNat ∧ c.toNat ≤ 57 then some (c.toNat - 48) else none

/-- Parses a non-empty all-digit character list into a natural number. -/
def parseDigits? (cs : List Char) : Option ℕ :=
  match cs with
  | [] => none
  | _ =>
    cs.foldl
      (fun acc c =>
        match acc, digitVal? c with
        | some a, some d => some (a * 10 + d)
        | _, _ => none)
      (some 0)

/-- Strips an optional leading sign, returning whether it was negative. -/
def stripSign : List Char → Bool × List Char
  | '-' :: rest => (true, rest)
  | '+' :: rest => (false, rest)
  | cs => (false, cs)

/-- Parses an optionally signed integer (used for exponents). -/
def parseInt? (cs : List Char) : Option ℤ :=
  let p := stripSign cs
  (parseDigits? p.2).map (fun n => if p.1 then -(n : ℤ) else (n : ℤ))

/-- Parses an optionally signed decimal literal (no exponent part) into a
numerator/denominator pair, so the rational is assembled in one step. -/
def parseFixed? (cs : List Char) : Option (ℤ × ℕ) :=
  let p := stripSign cs
  let val? : Option (ℤ × ℕ) :=
    match splitOnChar '.' p.2 with
    | [i] => (parseDigits? i).map (fun n => ((n : ℤ), 1))
    | [i, f] =>
      if i.isEmpty && f.isEmpty then none
      else
        match (if i.isEmpty then some 0 else parseDigits? i),
            (if f.isEmpty then some 0 else parseDigits? f) with
        | some a, some b => some (((a * 10 ^ f.length + b : ℕ) : ℤ), 10 ^ f.length)
        | _, _ => none
    | _ => none
  val?.map (fun v => (if p.1 then -v.1 else v.1, v.2))

/-- Modelled from the spec: numeric-field parsing of the backend
`SpectrumParser` (missing `impedance_service.py`): an optionally signed decimal
with an optional scientific-notation exponent, surrounded by optional
whitespace.  Non-numeric content yields `none`. -/
def parseRat? (cs : List Char) : Option ℚ :=
  let t := (trimChars cs).map lowerChar
  match splitOnChar 'e' t with
  | [m] => (parseFixed? m).map (fun v => mkRat v.1 v.2)
  | [m, ex] =>
    match parseFixed? m, parseInt? ex with
    | some v, some k =>
      some (if 0 ≤ k then mkRat (v.1 * 10 ^ k.toNat) v.2
        else mkRat v.1 (v.2 * 10 ^ (-k).toNat))
    | _, _ => none
  | _ => none

/-- One validated EIS measurement: frequency and complex impedance parts. -/
structure Sample where
  freq : ℚ
  zRe : ℚ
  zIm : ℚ
deriving DecidableEq, Repr

/-- A parsed spectrum is an ordered list of samples. -/
abbrev Spectrum := List Sample

/-- Failure taxonomy of the analysis core: malformed CSV (unrecognised header
naming the missing column, or a bad data row naming its index) and too little
data. -/
inductive ParseError where
  | malformedHeader (missingCol : String)
  | malformedRow (rowIndex : ℕ)
  | insufficientData
deriving DecidableEq, Repr

instance {ε α : Type} [DecidableEq ε] [DecidableEq α] : DecidableEq (Except ε α) := fun x y =>
  match x, y with
  | .ok a, .ok b =>
    if h : a = b then .isTrue (by rw [h]) else .isFalse (fun he => by cases he; exact h rfl)
  | .error e, .error f =>
    if h : e = f then .isTrue (by rw [h]) else .isFalse (fun he => by cases he; exact h rfl)
  | .ok _, .error _ => .isFalse (fun he => by cases he)
  | .error _, .ok _ => .isFalse (fun he => by cases he)

/-- A data row, already split into cells. -/
abbrev Row := List (List Char)

/-- Splits one CSV line into trimmed cells. -/
def splitFields (line : List Char) : Row :=
  (splitOnChar ',' line).map trimChars

/-- Trimmed, lower-cased cell used for header matching. -/
def normalizeCell (cs : List Char) : List Char :=
  (trimChars cs).map lowerChar

/-- Modelled from the spec: recognised aliases of the frequency column. -/
def isFreqHeader (cs : List Char) : Bool :=
  let t := normalizeCell cs
  t == "freq".data || t == "frequency".data || t == "hz".data

/-- Modelled from the spec: recognised aliases of the real-part column. -/
def isRealHeader (cs : List Char) : Bool :=
  let t := normalizeCell cs
  t == "real".data || t == "z_real".data || t == "zre".data

/-- Modelled from the spec: recognised aliases of the imaginary-part column. -/
def isImagHeader (cs : List Char) : Bool :=
  let t := normalizeCell cs
  t == "imag".data || t == "z_imag".data || t == "zim".data

/-- Extracts the three named columns of a data row as a sample, or fails if a
column is absent or non-numeric. -/
def parseRowSample? (fi ri ii : ℕ) (r : Row) : Option Sample :=
  match (r.get? fi).bind parseRat?, (r.get? ri).bind parseRat?,
      (r.get? ii).bind parseRat? with
  | some f, some re, some im => some ⟨f, re, im⟩
  | _, _, _ => none

/-- Modelled from the spec: validation of one data row of the backend
`SpectrumParser` — the row must have the header's field count, the three
named columns must be numeric, and the frequency must be positive. -/
def rowOk? (hl fi ri ii : ℕ) (r : Row) : Option Sample :=
  if r.length = hl then
    match parseRowSample? fi ri ii r with
    | some s => if 0 < s.freq then some s else none
    | none => none
  else none

/-- Modelled from the spec: row processing of the backend `SpectrumParser`;
the first invalid data row aborts with `MalformedInput` naming its index. -/
def parseRows (hl fi ri ii : ℕ) : ℕ → List Row → Except ParseError (List Sample)
  | _, [] => .ok []
  | idx, r :: rs =>
    match rowOk? hl fi ri ii r with
    | none => .error (.malformedRow idx)
    | some s =>
      match parseRows hl fi ri ii (idx + 1) rs with
      | .ok l => .ok (s :: l)
      | .error e => .error e

/-- Splits raw text into trimmed, non-empty lines. -/
def splitLines (cs : List Char) : List (List Char) :=
  ((splitOnChar '\n' cs).map trimChars).filter (fun l => !l.isEmpty)

/-- Modelled from the spec: the backend `SpectrumParser` on pre-split lines —
match the three columns by header alias (else `MalformedInput` naming the
missing column), validate every data row (else `MalformedInput` naming the row
index), and require at least 3 valid rows (else `InsufficientData`). -/
def spectrumParserLines : List (List Char) → Except ParseError Spectrum
  | [] => .error (.malformedHeader "frequency")
  | hdr :: rows =>
    let h := splitFields hdr
    match h.findIdx? isFreqHeader with
    | none => .error (.malformedHeader "frequency")
    | some fi =>
      match h.findIdx? isRealHeader with
      | none => .error (.malformedHeader "real")
      | some ri =>
        match h.findIdx? isImagHeader with
        | none => .error (.malformedHeader "imag")
        | some ii =>
          match parseRows h.length fi ri ii 0 (rows.map splitFields) with
          | .error e => .error e
          | .ok l => if l.length < 3 then .error .insufficientData else .ok l

/-- Modelled from the spec: the backend `SpectrumParser` on raw CSV text. -/
def spectrumParser (input : String) : Except ParseError Spectrum :=
  spectrumParserLines (splitLines input.data)

/-- Ordering of samples by frequency, used for the displayed Bode series. -/
def freqLe (a b : Sample) : Prop := a.freq ≤ b.freq

instance : DecidableRel freqLe := fun a b => inferInstanceAs (Decidable (a.freq ≤ b.freq))

instance : IsTotal Sample freqLe := ⟨fun a b => le_total a.freq b.freq⟩

instance : IsTrans Sample freqLe := ⟨fun _ _ _ h1 h2 => le_trans h1 h2⟩

/-- Modelled from the spec: the stable ascending-by-frequency sort the backend
`BodeProjector` applies before returning the series (insertion sort is
stable). -/
def sortByFreq (l : List Sample) : List Sample := List.insertionSort freqLe l

/-- Modelled from the spec: `magnitude = sqrt(z_real^2 + z_imag^2)`. -/
noncomputable def magnitudeOf (s : Sample) : ℝ :=
  Real.sqrt ((s.zRe : ℝ) ^ 2 + (s.zIm : ℝ) ^ 2)

/-- Modelled from the spec: the two-argument arctangent `atan2 y x`, the angle
of the point `(x, y)`. -/
noncomputable def atan2 (y x : ℝ) : ℝ :=
  if 0 < x then Real.arctan (y / x)
  else if x < 0 then
    (if 0 ≤ y then Real.arctan (y / x) + Real.pi else Real.arctan (y / x) - Real.pi)
  else (if 0 < y then Real.pi / 2 else if y < 0 then -(Real.pi / 2) else 0)

/-- Modelled from the spec: `phase_degrees = atan2(z_imag, z_real) * 180 / pi`. -/
noncomputable def phaseDegOf (s : Sample) : ℝ :=
  atan2 (s.zIm : ℝ) (s.zRe : ℝ) * 180 / Real.pi

/-- Three aligned display series: frequency, magnitude and phase. -/
structure BodeSeries where
  freqs : List ℚ
  mags : List ℝ
  phases : List ℝ

/-- Modelled from the spec: the backend `BodeProjector` — per-sample magnitude
and phase, sorted ascending by frequency, an empty spectrum propagating
`InsufficientData`. -/
noncomputable def BodeProjector (l : Spectrum) : Except ParseError BodeSeries :=
  match l with
  | [] => .error .insufficientData
  | _ =>
    .ok ⟨(sortByFreq l).map Sample.freq, (sortByFreq l).map magnitudeOf,
      (sortByFreq l).map phaseDegOf⟩

/-- The samples of a list whose frequency is exactly `q`, in order. -/
def freqFilter (q : ℚ) (l : List Sample) : List Sample :=
  l.filter (fun s => decide (s.freq = q))

/-- The 6-row example spectrum of the spec's concrete scenario, in upload
order (descending frequency). -/
def exampleSpectrum : Spectrum :=
  [⟨1000, mkRat 5 100, 0⟩, ⟨100, mkRat 7 100, mkRat (-2) 100⟩,
   ⟨10, mkRat 9 100, mkRat (-5) 100⟩, ⟨1, mkRat 11 100, mkRat (-3) 100⟩,
   ⟨mkRat 1 10, mkRat 15 100, mkRat 1 100⟩, ⟨mkRat 1 100, mkRat 20 100, mkRat 8 100⟩]

/-- The eight fitted circuit parameters, over an arbitrary scalar type. -/
structure CircuitParameters (α : Type) where
  R0 : α
  R1 : α
  CPE1_Q : α
  CPE1_n : α
  R2 : α
  CPE2_Q : α
  CPE2_n : α
  Wsigma : α
deriving DecidableEq

/-- Modelled from the spec: the physically admissible ranges — resistances and
CPE magnitudes positive, CPE exponents in `(0, 1]`, Warburg coefficient
positive. -/
def inBounds (p : CircuitParameters ℚ) : Prop :=
  0 < p.R0 ∧ 0 < p.R1 ∧ 0 < p.CPE1_Q ∧ (0 < p.CPE1_n ∧ p.CPE1_n ≤ 1) ∧
    0 < p.R2 ∧ 0 < p.CPE2_Q ∧ (0 < p.CPE2_n ∧ p.CPE2_n ≤ 1) ∧ 0 < p.Wsigma

instance (p : CircuitParameters ℚ) : Decidable (inBounds p) := by
  unfold inBounds
  infer_instance

/-- A fixed in-bounds fallback parameter vector (CPE exponents at the spec's
0.8-0.9 heuristic range). -/
def defaultParams : CircuitParameters ℚ :=
  ⟨mkRat 1 100, mkRat 1 100, 1, mkRat 9 10, mkRat 1 100, 1, mkRat 9 10, 1⟩

/-- Modelled from the spec: the deterministic initial-guess heuristic — `R0`
from the high-frequency real-impedance intercept, `R1`/`R2` as halves of the
total resistive spread, CPE exponents near 0.9, the Warburg coefficient from
the low-frequency imaginary part. -/
def initialGuess (l : Spectrum) : CircuitParameters ℚ :=
  match (sortByFreq l).head?, (sortByFreq l).getLast? with
  | some lo, some hi =>
    ⟨hi.zRe, (lo.zRe - hi.zRe) / 2, 1, mkRat 9 10, (lo.zRe - hi.zRe) / 2, 1, mkRat 9 10,
      |lo.zIm|⟩
  | _, _ => defaultParams

/-- Modelled from the spec: the optimizer respects bounds rather than merely
penalising violations — a proposed step is kept only when it satisfies the
physical bounds, otherwise the current iterate is retained. -/
def acceptStep (cur cand : CircuitParameters ℚ) : CircuitParameters ℚ :=
  if inBounds cand then cand else cur

/-- Sanitises the heuristic initial guess into the bounds. -/
def sanitizeGuess (g : CircuitParameters ℚ) : CircuitParameters ℚ :=
  if inBounds g then g else defaultParams

/-- Modelled from the spec: the bounded iterative refinement loop — apply the
solver's proposal, keep it only when it stays in bounds, and stop when the
iterate no longer moves or the iteration budget is exhausted. -/
def fitIter (step : CircuitParameters ℚ → CircuitParameters ℚ) :
    ℕ → CircuitParameters ℚ → CircuitParameters ℚ
  | 0, p => p
  | n + 1, p =>
    let q := acceptStep p (step p)
    if q = p then p else fitIter step n q

/-- Iteration budget of the fitter. -/
def maxIter : ℕ := 100

/-- Modelled from the spec: the backend `ECMFitter` parameterised by the
underlying bounded least-squares solver's proposal function; fewer samples
than the 8 free parameters is under-determined and re-raises
`InsufficientData`. -/
def fitWith (step : Spectrum → CircuitParameters ℚ → CircuitParameters ℚ)
    (l : Spectrum) : Except ParseError (CircuitParameters ℚ) :=
  if l.length < 8 then .error .insufficientData
  else .ok (fitIter (step l) maxIter (sanitizeGuess (initialGuess l)))

/-- Modelled from the spec: the default deterministic solver proposal, nudging
`R0` halfway towards the high-frequency real-impedance intercept. -/
def defaultStep (l : Spectrum) (p : CircuitParameters ℚ) : CircuitParameters ℚ :=
  match (sortByFreq l).getLast? with
  | some hi => { p with R0 := (p.R0 + hi.zRe) / 2 }
  | none => p

/-- Modelled from the spec: the backend `ECMFitter` with its fixed
deterministic heuristic and solver. -/
def ECMFitter (l : Spectrum) : Except ParseError (CircuitParameters ℚ) :=
  fitWith defaultStep l

/-- An 8-sample spectrum (the 6-row example extended by two high-frequency
samples), enough for the 8-parameter fit. -/
def exampleSpectrum8 : Spectrum :=
  exampleSpectrum ++ [⟨2000, mkRat 4 100, 0⟩, ⟨5000, mkRat 3 100, 0⟩]

/-- Small-step view of the fitter's loop: `FitRun step n p q` holds when a
complete run of the bounded refinement loop with fuel `n` from iterate `p`
ends at `q`. -/
inductive FitRun (step : CircuitParameters ℚ → CircuitParameters ℚ) :
    ℕ → CircuitParameters ℚ → CircuitParameters ℚ → Prop
  | exhausted (p : CircuitParameters ℚ) : FitRun step 0 p p
  | converged (n : ℕ) (p : CircuitParameters ℚ) (h : acceptStep p (step p) = p) :
      FitRun step (n + 1) p p
  | proceed (n : ℕ) (p q r : CircuitParameters ℚ) (h : acceptStep p (step p) = q)
      (hne : q ≠ p) (hrun : FitRun step n q r) : FitRun step (n + 1) p r

/-- A complete run of the ECM fit on spectrum `l` (fixed heuristic initial
guess, fixed solver, full budget) ending at parameters `r`. -/
def FitRunsTo (l : Spectrum) (r : CircuitParameters ℚ) : Prop :=
  8 ≤ l.length ∧ FitRun (defaultStep l) maxIter (sanitizeGuess (initialGuess l)) r

/-- Modelled from the spec: the constant-phase element
`Zcpe = 1 / (Q * (j * 2 * pi * f) ^ n)`. -/
noncomputable def Zcpe (Q n f : ℝ) : ℂ :=
  1 / ((Q : ℂ) * (Complex.I * (2 * Real.pi * f)) ^ (n : ℂ))

/-- Modelled from the spec: two elements in parallel,
`Zp(R, Zc) = (R * Zc) / (R + Zc)`. -/
noncomputable def Zpar (R : ℝ) (zc : ℂ) : ℂ := ((R : ℂ) * zc) / ((R : ℂ) + zc)

/-- Modelled from the spec: the semi-infinite Warburg element
`Zw = sigma * (1 - j) / sqrt(2 * pi * f)`. -/
noncomputable def Zwarburg (sigma f : ℝ) : ℂ :=
  (sigma : ℂ) * (1 - Complex.I) / (Real.sqrt (2 * Real.pi * f) : ℂ)

/-- Modelled from the spec: the fixed-topology circuit model in one closed
form — a series resistor, two parallel R-CPE branches and a Warburg element. -/
noncomputable def CircuitModel (p : CircuitParameters ℝ) (f : ℝ) : ℂ :=
  let jw : ℂ := Complex.I * (2 * Real.pi * f)
  let zc1 : ℂ := 1 / ((p.CPE1_Q : ℂ) * jw ^ (p.CPE1_n : ℂ))
  let zc2 : ℂ := 1 / ((p.CPE2_Q : ℂ) * jw ^ (p.CPE2_n : ℂ))
  (p.R0 : ℂ) + ((p.R1 : ℂ) * zc1) / ((p.R1 : ℂ) + zc1) +
    ((p.R2 : ℂ) * zc2) / ((p.R2 : ℂ) + zc2) +
    (p.Wsigma : ℂ) * (1 - Complex.I) / (Real.sqrt (2 * Real.pi * f) : ℂ)

/-- Embedded from `frontend/src/app/page.tsx` (`EcmDiagram`, also in the
README): the circuit topology label carried with the analysis report. -/
def ecmCircuitLabel : String := "R0 - p(R1,CPE1) - p(R2,CPE2) - W1"

/-- Modelled from the spec: the backend `SoHEvaluator` (missing
`impedance_service.py`).  Given the fitted bulk resistance `rbCurrent` and a
reference `rbMax`, it returns `(1 - rbCurrent / rbMax) * 100`. -/
def SoHEvaluator (rbCurrent rbMax : ℚ) : ℚ :=
  (1 - rbCurrent / rbMax) * 100

/-- Embedded from `frontend/src/app/page.tsx` (`mapAnalysis`): the SoH
percentage shown to the caller is `data.soh_percentage ?? 0`, i.e. the backend
value passed through unchanged (with `0` only for a missing field). -/
def mapAnalysis_sohPercent (soh_percentage : Option ℚ) : ℚ :=
  soh_percentage.getD 0

/-- Embedded from `frontend/src/app/page.tsx` (`mapAnalysis`): the formula
label attached to the SoH section of the analysis view. -/
def mapAnalysis_sohFormula : String :=
  "SoH = (1 - Rb_current / Rb_max) * 100"

/-- Embedded from `frontend/src/lib/api.ts` (`getSoH(rbMax: number = 0.1)`):
the `rb_max` value sent to the SoH query when the caller omits it. -/
def getSoH_rbMax (rbMax : Option ℚ) : ℚ :=
  rbMax.getD (1/10)

/-- Embedded from `frontend/src/lib/api.ts`
(`uploadCellEIS(cellId, file, rbMax: number = 0.1)`): the `rb_max` value sent
with a per-cell EIS upload when the caller omits it. -/
def uploadCellEIS_rbMax (rbMax : Option ℚ) : ℚ :=
  rbMax.getD (1/10)

/-- Embedded from `src/unnamed/part_004` (`SoHDisplay({ shouldFetch = false,
rbMax = 0.1 })`): the `rb_max` the SoH display component uses when its prop is
omitted. -/
def SoHDisplay_rbMax (rbMax : Option ℚ) : ℚ :=
  rbMax.getD (1/10)

/-- Embedded from `frontend/src/app/page.tsx` (`clamp01`). -/
def clamp01 (x : ℚ) : ℚ :=
  min 1 (max 0 x)

/-- Embedded from `frontend/src/app/page.tsx` (`BatteryIcon`): the inner width
of the battery icon body. -/
def batteryInnerW : ℚ := 34

/-- Embedded from `frontend/src/app/page.tsx` (`BatteryIcon`): the width of the
fill rectangle, `innerW * clamp01(percent / 100)`. -/
def batteryFillW (percent : ℚ) : ℚ :=
  batteryInnerW * clamp01 (percent / 100)

/-! ## Theorems -/

example : parseRat? "1000".data = some (mkRat 1000 1) := by decide

example : parseRat? " -0.05 ".data = some (mkRat (-5) 100) := by decide

example : parseRat? "2.5E-2".data = some (mkRat 25 1000) := by decide

example : parseRat? "abc".data = none := by decide

example :
    spectrumParser "freq,z_real,z_imag\n1000,0.05,0.0\n100,0.07,-0.02\n10,0.09,-0.05" =
      .ok [⟨mkRat 1000 1, mkRat 5 100, 0⟩, ⟨mkRat 100 1, mkRat 7 100, mkRat (-2) 100⟩,
        ⟨mkRat 10 1, mkRat 9 100, mkRat (-5) 100⟩] := by decide

example :
    spectrumParser "freq,real\n1,2\n3,4\n5,6" = .error (.malformedHeader "imag") := by decide

example :
    spectrumParser "hz,zre,zim\n1,2,3\n-1,2,3\n5,6,7" = .error (.malformedRow 1) := by decide

example :
    spectrumParser "hz,zre,zim\n1,2,3\n2,2,3" = .error .insufficientData := by decide

theorem filterMap_length_of_all {α β : Type} (f : α → Option β) (rs : List α)
    (h : ∀ r ∈ rs, (f r).isSome) : (rs.filterMap f).length = rs.length := by
  induction rs with
  | nil => rfl
  | cons r rs ih =>
    obtain ⟨b, hb⟩ := Option.isSome_iff_exists.mp (h r (by simp))
    simp [List.filterMap_cons, hb, ih (fun x hx => h x (by simp [hx]))]

theorem parseRows_ok_of_all (hl fi ri ii : ℕ) (rs : List Row) :
    ∀ idx, (∀ r ∈ rs, (rowOk? hl fi ri ii r).isSome) →
      parseRows hl fi ri ii idx rs = .ok (rs.filterMap (rowOk? hl fi ri ii)) := by
  induction rs with
  | nil => intro idx _; rfl
  | cons r rs ih =>
    intro idx h
    obtain ⟨s, hs⟩ := Option.isSome_iff_exists.mp (h r (by simp))
    have hrec := ih (idx + 1) (fun x hx => h x (by simp [hx]))
    simp [parseRows, hs, hrec, List.filterMap_cons]

theorem parseRows_ok_inv (hl fi ri ii : ℕ) (rs : List Row) :
    ∀ idx l, parseRows hl fi ri ii idx rs = .ok l →
      (∀ r ∈ rs, (rowOk? hl fi ri ii r).isSome) ∧
        l = rs.filterMap (rowOk? hl fi ri ii) := by
  induction rs with
  | nil =>
    intro idx l h
    simp only [parseRows] at h
    cases h
    simp
  | cons r rs ih =>
    intro idx l h
    unfold parseRows at h
    cases hro : rowOk? hl fi ri ii r with
    | none => rw [hro] at h; cases h
    | some s =>
      rw [hro] at h
      cases hrec : parseRows hl fi ri ii (idx + 1) rs with
      | error e => rw [hrec] at h; cases h
      | ok l' =>
        rw [hrec] at h
        cases h
        obtain ⟨h1, h2⟩ := ih (idx + 1) l' hrec
        refine ⟨?_, by simp [List.filterMap_cons, hro, h2]⟩
        intro x hx
        rcases List.mem_cons.mp hx with rfl | hx
        · simp [hro]
        · exact h1 x hx

theorem parseRows_error_iff (hl fi ri ii : ℕ) (rs : List Row) :
    ∀ idx e, parseRows hl fi ri ii idx rs = .error e ↔
      ∃ pre bad post, rs = pre ++ bad :: post ∧
        (∀ r ∈ pre, (rowOk? hl fi ri ii r).isSome) ∧
        rowOk? hl fi ri ii bad = none ∧ e = .malformedRow (idx + pre.length) := by
  induction rs with
  | nil =>
    intro idx e
    constructor
    · intro h; simp only [parseRows] at h; cases h
    · rintro ⟨pre, bad, post, habs, -⟩
      exact absurd habs (by simp)
  | cons r rs ih =>
    intro idx e
    constructor
    · intro h
      unfold parseRows at h
      cases hro : rowOk? hl fi ri ii r with
      | none =>
        rw [hro] at h
        cases h
        exact ⟨[], r, rs, rfl, by simp, hro, by simp⟩
      | some s =>
        rw [hro] at h
        cases hrec : parseRows hl fi ri ii (idx + 1) rs with
        | ok l => rw [hrec] at h; cases h
        | error e1 =>
          rw [hrec] at h
          cases h
          obtain ⟨pre, bad, post, h1, h2, h3, h4⟩ := (ih (idx + 1) e).mp hrec
          refine ⟨r :: pre, bad, post, by simp [h1], ?_, h3, ?_⟩
          · intro x hx
            rcases List.mem_cons.mp hx with rfl | hx
            · simp [hro]
            · exact h2 x hx
          · rw [h4]
            congr 1
            simp
            omega
    · rintro ⟨pre, bad, post, hsplit, hgood, hbad, he⟩
      cases pre with
      | nil =>
        simp only [List.nil_append] at hsplit
        cases hsplit
        subst he
        simp [parseRows, hbad]
      | cons p pre =>
        simp only [List.cons_append] at hsplit
        cases hsplit
        obtain ⟨s, hs⟩ :=
          Option.isSome_iff_exists.mp (hgood r (by simp))
        have hrec : parseRows hl fi ri ii (idx + 1) (pre ++ bad :: post) = .error e := by
          refine (ih (idx + 1) e).mpr
            ⟨pre, bad, post, rfl, fun x hx => hgood x (by simp [hx]), hbad, ?_⟩
          rw [he]
          congr 1
          simp
          omega
        simp [parseRows, hs, hrec]

theorem rowOk_none_iff (hl fi ri ii : ℕ) (r : Row) :
    rowOk? hl fi ri ii r = none ↔
      r.length ≠ hl ∨ parseRowSample? fi ri ii r = none ∨
        ∃ s, parseRowSample? fi ri ii r = some s ∧ s.freq ≤ 0 := by
  unfold rowOk?
  by_cases hlen : r.length = hl
  · rw [if_pos hlen]
    cases hps : parseRowSample? fi ri ii r with
    | none => exact iff_of_true rfl (Or.inr (Or.inl rfl))
    | some s =>
      dsimp only
      by_cases hf : 0 < s.freq
      · rw [if_pos hf]
        refine iff_of_false (by simp) ?_
        rintro (hc | hc | ⟨s1, hs1, hle⟩)
        · exact hc hlen
        · cases hc
        · cases hs1
          exact absurd hf (not_lt.mpr hle)
      · rw [if_neg hf]
        exact iff_of_true rfl (Or.inr (Or.inr ⟨s, rfl, le_of_not_lt hf⟩))
  · rw [if_neg hlen]
    exact iff_of_true rfl (Or.inl hlen)

theorem spectrumParserLines_eq_error (hdr : List Char) (rows : List (List Char))
    (fi ri ii : ℕ) (e : ParseError)
    (hfi : (splitFields hdr).findIdx? isFreqHeader = some fi)
    (hri : (splitFields hdr).findIdx? isRealHeader = some ri)
    (hii : (splitFields hdr).findIdx? isImagHeader = some ii)
    (hpr : parseRows (splitFields hdr).length fi ri ii 0 (rows.map splitFields) = .error e) :
    spectrumParserLines (hdr :: rows) = .error e := by
  simp only [spectrumParserLines, hfi, hri, hii, hpr]

theorem spectrumParserLines_eq_ok (hdr : List Char) (rows : List (List Char))
    (fi ri ii : ℕ) (l : List Sample)
    (hfi : (splitFields hdr).findIdx? isFreqHeader = some fi)
    (hri : (splitFields hdr).findIdx? isRealHeader = some ri)
    (hii : (splitFields hdr).findIdx? isImagHeader = some ii)
    (hpr : parseRows (splitFields hdr).length fi ri ii 0 (rows.map splitFields) = .ok l) :
    spectrumParserLines (hdr :: rows) =
      if l.length < 3 then .error .insufficientData else .ok l := by
  simp only [spectrumParserLines, hfi, hri, hii, hpr]

/-- C3: the spectrum parser fails with `MalformedInput` exactly when the header
is unrecognised (naming the missing column) or some data row is invalid — wrong
field count, non-numeric content, or frequency `≤ 0` — naming the index of the
first offending row; it fails with `InsufficientData` exactly when all rows are
valid but fewer than 3 remain; with all rows valid and at least 3 of them
(in particular exactly 3) it succeeds, returning exactly the parsed rows, so no
partial spectrum is ever produced. -/
theorem C3_parser_failure_modes :
    (∀ input : String, spectrumParser input = spectrumParserLines (splitLines input.data)) ∧
    (∀ hl fi ri ii : ℕ, ∀ r : Row, rowOk? hl fi ri ii r = none ↔
      r.length ≠ hl ∨ parseRowSample? fi ri ii r = none ∨
        ∃ s, parseRowSample? fi ri ii r = some s ∧ s.freq ≤ 0) ∧
    ∀ hdr : List Char, ∀ rows : List (List Char),
      ((∃ c, spectrumParserLines (hdr :: rows) = .error (.malformedHeader c)) ↔
        ¬ (((splitFields hdr).findIdx? isFreqHeader).isSome ∧
          ((splitFields hdr).findIdx? isRealHeader).isSome ∧
          ((splitFields hdr).findIdx? isImagHeader).isSome)) ∧
      ∀ fi ri ii : ℕ,
        (splitFields hdr).findIdx? isFreqHeader = some fi →
        (splitFields hdr).findIdx? isRealHeader = some ri →
        (splitFields hdr).findIdx? isImagHeader = some ii →
        (∀ j, spectrumParserLines (hdr :: rows) = .error (.malformedRow j) ↔
          ∃ pre bad post, rows.map splitFields = pre ++ bad :: post ∧
            (∀ r ∈ pre, (rowOk? (splitFields hdr).length fi ri ii r).isSome) ∧
            rowOk? (splitFields hdr).length fi ri ii bad = none ∧ j = pre.length) ∧
        (spectrumParserLines (hdr :: rows) = .error .insufficientData ↔
          (∀ r ∈ rows.map splitFields,
            (rowOk? (splitFields hdr).length fi ri ii r).isSome) ∧ rows.length < 3) ∧
        (∀ l, spectrumParserLines (hdr :: rows) = .ok l ↔
          (∀ r ∈ rows.map splitFields,
            (rowOk? (splitFields hdr).length fi ri ii r).isSome) ∧ 3 ≤ rows.length ∧
          l = (rows.map splitFields).filterMap (rowOk? (splitFields hdr).length fi ri ii)) := by
  refine ⟨fun _ => rfl, rowOk_none_iff, ?_⟩
  intro hdr rows
  constructor
  · -- header characterization
    cases hfi : (splitFields hdr).findIdx? isFreqHeader with
    | none => simp [spectrumParserLines, hfi]
    | some fi =>
      cases hri : (splitFields hdr).findIdx? isRealHeader with
      | none => simp [spectrumParserLines, hfi, hri]
      | some ri =>
        cases hii : (splitFields hdr).findIdx? isImagHeader with
        | none => simp [spectrumParserLines, hfi, hri, hii]
        | some ii =>
          constructor
          · rintro ⟨c, hc⟩
            cases hpr : parseRows (splitFields hdr).length fi ri ii 0 (rows.map splitFields) with
            | error e =>
              rw [spectrumParserLines_eq_error hdr rows fi ri ii e hfi hri hii hpr] at hc
              obtain ⟨pre, bad, post, -, -, -, he⟩ :=
                (parseRows_error_iff _ fi ri ii _ 0 e).mp hpr
              rw [he] at hc
              cases hc
            | ok l =>
              rw [spectrumParserLines_eq_ok hdr rows fi ri ii l hfi hri hii hpr] at hc
              by_cases h3 : l.length < 3
              · rw [if_pos h3] at hc; cases hc
              · rw [if_neg h3] at hc; cases hc
          · intro habs
            exact absurd ⟨by simp [hfi], by simp [hri], by simp [hii]⟩ habs
  · intro fi ri ii hfi hri hii
    have hall :
        ∀ l, parseRows (splitFields hdr).length fi ri ii 0 (rows.map splitFields) = .ok l →
          l.length = rows.length := by
      intro l hl
      obtain ⟨h1, h2⟩ := parseRows_ok_inv _ fi ri ii _ 0 l hl
      rw [h2, filterMap_length_of_all _ _ h1, List.length_map]
    refine ⟨?_, ?_, ?_⟩
    · -- malformed row characterization
      intro j
      cases hpr : parseRows (splitFields hdr).length fi ri ii 0 (rows.map splitFields) with
      | error e =>
        rw [spectrumParserLines_eq_error hdr rows fi ri ii e hfi hri hii hpr]
        constructor
        · intro hc
          cases hc
          obtain ⟨pre, bad, post, h1, h2, h3, h4⟩ :=
            (parseRows_error_iff _ fi ri ii _ 0 (.malformedRow j)).mp hpr
          cases h4
          exact ⟨pre, bad, post, h1, h2, h3, by omega⟩
        · rintro ⟨pre, bad, post, h1, h2, h3, rfl⟩
          have herr := (parseRows_error_iff _ fi ri ii _ 0
              (.malformedRow (0 + pre.length))).mpr ⟨pre, bad, post, h1, h2, h3, rfl⟩
          rw [hpr] at herr
          cases herr
          norm_num
      | ok l =>
        rw [spectrumParserLines_eq_ok hdr rows fi ri ii l hfi hri hii hpr]
        have hnoerr : ∀ pre bad post, rows.map splitFields = pre ++ bad :: post →
            (∀ r ∈ pre, (rowOk? (splitFields hdr).length fi ri ii r).isSome) →
            rowOk? (splitFields hdr).length fi ri ii bad = none → False := by
          intro pre bad post h1 h2 hb
          have herr := (parseRows_error_iff _ fi ri ii _ 0
              (.malformedRow (0 + pre.length))).mpr ⟨pre, bad, post, h1, h2, hb, rfl⟩
          rw [hpr] at herr
          cases herr
        by_cases h3 : l.length < 3
        · rw [if_pos h3]
          constructor
          · intro hc; cases hc
          · rintro ⟨pre, bad, post, h1, h2, hb, -⟩
            exact (hnoerr pre bad post h1 h2 hb).elim
        · rw [if_neg h3]
          constructor
          · intro hc; cases hc
          · rintro ⟨pre, bad, post, h1, h2, hb, -⟩
            exact (hnoerr pre bad post h1 h2 hb).elim
    · -- insufficient-data characterization
      cases hpr : parseRows (splitFields hdr).length fi ri ii 0 (rows.map splitFields) with
      | error e =>
        rw [spectrumParserLines_eq_error hdr rows fi ri ii e hfi hri hii hpr]
        constructor
        · intro hc
          cases hc
          obtain ⟨p1, b1, q1, g1, g2, g3, he⟩ :=
            (parseRows_error_iff _ fi ri ii _ 0 ParseError.insufficientData).mp hpr
          cases he
        · rintro ⟨hgood, -⟩
          have hok := parseRows_ok_of_all _ fi ri ii _ 0 hgood
          rw [hpr] at hok
          cases hok
      | ok l =>
        rw [spectrumParserLines_eq_ok hdr rows fi ri ii l hfi hri hii hpr]
        obtain ⟨h1, -⟩ := parseRows_ok_inv _ fi ri ii _ 0 l hpr
        have hlen := hall l hpr
        by_cases h3 : l.length < 3
        · rw [if_pos h3]
          constructor
          · intro _; exact ⟨h1, by omega⟩
          · intro _; rfl
        · rw [if_neg h3]
          constructor
          · intro hc; cases hc
          · rintro ⟨-, hlt⟩
            omega
    · -- success characterization
      intro l
      cases hpr : parseRows (splitFields hdr).length fi ri ii 0 (rows.map splitFields) with
      | error e =>
        rw [spectrumParserLines_eq_error hdr rows fi ri ii e hfi hri hii hpr]
        constructor
        · intro hc; cases hc
        · rintro ⟨hgood, -, -⟩
          have hok := parseRows_ok_of_all _ fi ri ii _ 0 hgood
          rw [hpr] at hok
          cases hok
      | ok l1 =>
        rw [spectrumParserLines_eq_ok hdr rows fi ri ii l1 hfi hri hii hpr]
        obtain ⟨h1, h2⟩ := parseRows_ok_inv _ fi ri ii _ 0 l1 hpr
        have hlen := hall l1 hpr
        by_cases h3 : l1.length < 3
        · rw [if_pos h3]
          constructor
          · intro hc; cases hc
          · rintro ⟨-, hge, -⟩
            omega
        · rw [if_neg h3]
          constructor
          · intro hc
            cases hc
            exact ⟨h1, by omega, h2⟩
          · rintro ⟨-, -, rfl⟩
            rw [h2]

theorem C3_parser_failure_modes_witness :
    ∃ l, spectrumParserLines ("freq,real,imag".data ::
      ["1,2,3".data, "2,2,3".data, "3,2,3".data]) = .ok l := by
  obtain ⟨-, -, hmain⟩ := C3_parser_failure_modes
  obtain ⟨-, hcols⟩ := hmain "freq,real,imag".data ["1,2,3".data, "2,2,3".data, "3,2,3".data]
  obtain ⟨-, -, hok⟩ := hcols 0 1 2 (by decide) (by decide) (by decide)
  exact ⟨_, (hok _).mpr ⟨by decide, by decide, rfl⟩⟩

theorem freqFilter_orderedInsert (q : ℚ) (a : Sample) (l : List Sample) :
    freqFilter q (List.orderedInsert freqLe a l) =
      if a.freq = q then a :: freqFilter q l else freqFilter q l := by
  induction l with
  | nil =>
    by_cases haq : a.freq = q <;> simp [List.orderedInsert, freqFilter, List.filter, haq]
  | cons b l ih =>
    by_cases hab : freqLe a b
    · rw [List.orderedInsert_of_le _ _ hab]
      by_cases haq : a.freq = q <;> simp [freqFilter, List.filter_cons, haq]
    · have hblt : b.freq < a.freq := lt_of_not_le hab
      simp only [List.orderedInsert, if_neg hab]
      by_cases haq : a.freq = q
      · have hbq : ¬ b.freq = q := by
          intro hb
          rw [hb, ← haq] at hblt
          exact lt_irrefl _ hblt
        simp [freqFilter, List.filter_cons, hbq, haq] at ih ⊢
        exact ih
      · by_cases hbq : b.freq = q <;>
          simp [freqFilter, List.filter_cons, hbq, haq] at ih ⊢ <;> exact ih

theorem freqFilter_sortByFreq (q : ℚ) (l : List Sample) :
    freqFilter q (sortByFreq l) = freqFilter q l := by
  induction l with
  | nil => rfl
  | cons a l ih =>
    show freqFilter q (List.orderedInsert freqLe a (List.insertionSort freqLe l)) = _
    rw [freqFilter_orderedInsert]
    by_cases haq : a.freq = q <;>
      simp [freqFilter, List.filter_cons, haq] at ih ⊢ <;> exact ih

/-- C4: for every non-empty spectrum, `BodeProjector` returns, per sample,
`magnitude = sqrt(z_real^2 + z_imag^2)` (equivalently the complex modulus) and
`phase = atan2(z_imag, z_real) * 180 / pi`, and the returned series is sorted
ascending by frequency, is a permutation of the input, and keeps samples of
equal frequency in their original relative order (stability); the 6-row
example spectrum comes back starting at `0.01` Hz and ending at `1000` Hz. -/

theorem C4_bode_projection :
    (∀ l : Spectrum, l ≠ [] →
      BodeProjector l = .ok ⟨(sortByFreq l).map Sample.freq,
        (sortByFreq l).map magnitudeOf, (sortByFreq l).map phaseDegOf⟩ ∧
      (∀ s : Sample, magnitudeOf s = Real.sqrt ((s.zRe : ℝ) ^ 2 + (s.zIm : ℝ) ^ 2) ∧
        magnitudeOf s = Complex.abs ⟨(s.zRe : ℝ), (s.zIm : ℝ)⟩ ∧
        phaseDegOf s = atan2 (s.zIm : ℝ) (s.zRe : ℝ) * 180 / Real.pi) ∧
      ((sortByFreq l).map Sample.freq).Sorted (· ≤ ·) ∧
      (sortByFreq l).Perm l ∧
      (∀ q : ℚ, freqFilter q (sortByFreq l) = freqFilter q l)) ∧
    (sortByFreq exampleSpectrum).head?.map Sample.freq = some (mkRat 1 100) ∧
    (sortByFreq exampleSpectrum).getLast?.map Sample.freq = some 1000 := by
  refine ⟨?_, by decide, by decide⟩
  intro l hne
  refine ⟨?_, ?_, ?_, List.perm_insertionSort freqLe l, fun q => freqFilter_sortByFreq q l⟩
  · cases l with
    | nil => exact absurd rfl hne
    | cons a l => rfl
  · intro s
    refine ⟨rfl, ?_, rfl⟩
    rw [magnitudeOf, Complex.abs_apply, Complex.normSq_mk]
    congr 1
    ring
  · have hs : (sortByFreq l).Sorted freqLe := List.sorted_insertionSort freqLe l
    exact (List.pairwise_map).mpr hs

theorem C4_bode_projection_witness :
    BodeProjector exampleSpectrum = .ok ⟨(sortByFreq exampleSpectrum).map Sample.freq,
      (sortByFreq exampleSpectrum).map magnitudeOf,
      (sortByFreq exampleSpectrum).map phaseDegOf⟩ ∧
    ((sortByFreq exampleSpectrum).map Sample.freq).Sorted (· ≤ ·) ∧
    (sortByFreq exampleSpectrum).Perm exampleSpectrum := by
  obtain ⟨h1, -, h3, h4, -⟩ := C4_bode_projection.1 exampleSpectrum (by decide)
  exact ⟨h1, h3, h4⟩

theorem inBounds_defaultParams : inBounds defaultParams := by decide

theorem inBounds_sanitizeGuess (g : CircuitParameters ℚ) : inBounds (sanitizeGuess g) := by
  unfold sanitizeGuess
  split_ifs with h
  · exact h
  · exact inBounds_defaultParams

theorem inBounds_acceptStep (cur cand : CircuitParameters ℚ) (h : inBounds cur) :
    inBounds (acceptStep cur cand) := by
  unfold acceptStep
  split_ifs with hc
  · exact hc
  · exact h

theorem inBounds_fitIter (step : CircuitParameters ℚ → CircuitParameters ℚ) :
    ∀ (n : ℕ) (p : CircuitParameters ℚ), inBounds p → inBounds (fitIter step n p) := by
  intro n
  induction n with
  | zero => intro p h; exact h
  | succ n ih =>
    intro p h
    show inBounds (if acceptStep p (step p) = p then p else fitIter step n (acceptStep p (step p)))
    split_ifs with he
    · exact h
    · exact ih _ (inBounds_acceptStep p (step p) h)

/-- C2: for every spectrum with at least 8 samples, the fitter returns a
parameter vector inside the physical bounds — all resistances and CPE
magnitudes positive, CPE exponents in `(0, 1]`, Warburg coefficient positive —
whatever bounded solver proposal is plugged in; in particular this holds for
the concrete `ECMFitter`. -/
theorem C2_fitter_bounds (step : Spectrum → CircuitParameters ℚ → CircuitParameters ℚ)
    (l : Spectrum) (h8 : 8 ≤ l.length) :
    (∃ p, fitWith step l = .ok p ∧ inBounds p) ∧
    ∃ p, ECMFitter l = .ok p ∧ inBounds p := by
  have hnot : ¬ l.length < 8 := by omega
  constructor
  · exact ⟨fitIter (step l) maxIter (sanitizeGuess (initialGuess l)),
      by rw [fitWith, if_neg hnot],
      inBounds_fitIter _ _ _ (inBounds_sanitizeGuess _)⟩
  · exact ⟨fitIter (defaultStep l) maxIter (sanitizeGuess (initialGuess l)),
      by rw [ECMFitter, fitWith, if_neg hnot],
      inBounds_fitIter _ _ _ (inBounds_sanitizeGuess _)⟩

theorem C2_fitter_bounds_witness :
    ∃ p, ECMFitter exampleSpectrum8 = .ok p ∧ inBounds p :=
  (C2_fitter_bounds defaultStep exampleSpectrum8 (by decide)).2

theorem fitIter_realizes (step : CircuitParameters ℚ → CircuitParameters ℚ) :
    ∀ (n : ℕ) (p : CircuitParameters ℚ), FitRun step n p (fitIter step n p) := by
  intro n
  induction n with
  | zero => intro p; exact .exhausted p
  | succ n ih =>
    intro p
    show FitRun step (n + 1) p
      (if acceptStep p (step p) = p then p else fitIter step n (acceptStep p (step p)))
    split_ifs with he
    · exact .converged n p he
    · exact .proceed n p _ _ rfl he (ih _)

theorem fitRun_deterministic (step : CircuitParameters ℚ → CircuitParameters ℚ) :
    ∀ (n : ℕ) (p r1 r2 : CircuitParameters ℚ),
      FitRun step n p r1 → FitRun step n p r2 → r1 = r2 := by
  intro n
  induction n with
  | zero =>
    intro p r1 r2 h1 h2
    cases h1
    cases h2
    rfl
  | succ n ih =>
    intro p r1 r2 h1 h2
    cases h1 with
    | converged _ _ hc1 =>
      cases h2 with
      | converged _ _ hc2 => rfl
      | proceed _ _ q _ hq hne _ =>
        exact absurd (hq.symm.trans hc1) hne
    | proceed _ _ q _ hq hne hrun =>
      cases h2 with
      | converged _ _ hc2 =>
        exact absurd (hq.symm.trans hc2) hne
      | proceed _ _ q2 _ hq2 hne2 hrun2 =>
        cases hq.symm.trans hq2
        exact ih q r1 r2 hrun hrun2

/-- C8: the ECM fit is deterministic — any two complete runs of the fit on the
same spectrum (same fixed initial-guess heuristic and solver) end at the same
parameter vector, every spectrum with at least 8 samples has a run, and the
run's result is exactly what `ECMFitter` returns. -/
theorem C8_fit_deterministic :
    (∀ (step : CircuitParameters ℚ → CircuitParameters ℚ) (n : ℕ)
      (p r1 r2 : CircuitParameters ℚ),
        FitRun step n p r1 → FitRun step n p r2 → r1 = r2) ∧
    (∀ (l : Spectrum) (r1 r2 : CircuitParameters ℚ),
      FitRunsTo l r1 → FitRunsTo l r2 → r1 = r2) ∧
    (∀ l : Spectrum, 8 ≤ l.length → ∃ r, FitRunsTo l r) ∧
    (∀ (l : Spectrum) (r : CircuitParameters ℚ), FitRunsTo l r → ECMFitter l = .ok r) := by
  refine ⟨fitRun_deterministic, ?_, ?_, ?_⟩
  · rintro l r1 r2 ⟨-, h1⟩ ⟨-, h2⟩
    exact fitRun_deterministic (defaultStep l) maxIter _ r1 r2 h1 h2
  · intro l h8
    exact ⟨_, h8, fitIter_realizes (defaultStep l) maxIter _⟩
  · rintro l r ⟨h8, hrun⟩
    have hval := fitRun_deterministic (defaultStep l) maxIter _ _ _ hrun
      (fitIter_realizes (defaultStep l) maxIter _)
    rw [hval, ECMFitter, fitWith, if_neg (by omega)]

theorem C8_fit_deterministic_witness :
    fitIter (defaultStep exampleSpectrum8) maxIter (sanitizeGuess (initialGuess exampleSpectrum8)) =
      fitIter (defaultStep exampleSpectrum8) maxIter
        (sanitizeGuess (initialGuess exampleSpectrum8)) := by
  have hrun : FitRunsTo exampleSpectrum8
      (fitIter (defaultStep exampleSpectrum8) maxIter
        (sanitizeGuess (initialGuess exampleSpectrum8))) :=
    ⟨by decide, fitIter_realizes (defaultStep exampleSpectrum8) maxIter _⟩
  exact C8_fit_deterministic.2.1 exampleSpectrum8 _ _ hrun hrun

/-- C9: for every parameter vector and frequency `f > 0`, the circuit model is
exactly `R0 + Zp(R1, CPE1) + Zp(R2, CPE2) + Zw` — one series resistor, two
parallel R-CPE branches and one Warburg element — where a CPE with exponent 1
degenerates to an ideal capacitor and the parallel combination has the usual
admittance form; the topology label is the fixed string
`R0 - p(R1,CPE1) - p(R2,CPE2) - W1`. -/
theorem C9_circuit_topology (p : CircuitParameters ℝ) (f : ℝ) (hf : 0 < f) :
    CircuitModel p f =
      (p.R0 : ℂ) + Zpar p.R1 (Zcpe p.CPE1_Q p.CPE1_n f) +
        Zpar p.R2 (Zcpe p.CPE2_Q p.CPE2_n f) + Zwarburg p.Wsigma f ∧
    (∀ Q : ℝ, Zcpe Q 1 f = 1 / ((Q : ℂ) * (Complex.I * (2 * Real.pi * f)))) ∧
    (∀ (R : ℝ) (z : ℂ), z ≠ 0 → Zpar R z = (R : ℂ) / (1 + (R : ℂ) / z)) ∧
    ecmCircuitLabel = "R0 - p(R1,CPE1) - p(R2,CPE2) - W1" := by
  refine ⟨rfl, ?_, ?_, rfl⟩
  · intro Q
    rw [Zcpe, Complex.ofReal_one, Complex.cpow_one]
  · intro R z hz
    rw [Zpar]
    by_cases hRz : (R : ℂ) + z = 0
    · have hR : (R : ℂ) = -z := eq_neg_of_add_eq_zero_left hRz
      have hden : 1 + (R : ℂ) / z = 0 := by
        rw [hR, neg_div, div_self hz]
        ring
      rw [hRz, div_zero, hden, div_zero]
    · have h1 : 1 + (R : ℂ) / z = (z + R) / z := by
        field_simp
      rw [h1, div_div_eq_mul_div, add_comm (R : ℂ) z]

theorem C9_circuit_topology_witness :
    ecmCircuitLabel = "R0 - p(R1,CPE1) - p(R2,CPE2) - W1" :=
  (C9_circuit_topology ⟨1, 1, 1, 1, 1, 1, 1, 1⟩ 1 (by norm_num)).2.2.2

/-- C1: for every fitted bulk resistance and every reference `rb_max > 0`, the
SoH evaluator returns exactly `(1 - rb_current/rb_max) * 100` (equivalently
`(rb_max - rb_current)/rb_max * 100`), and with `rb_max = 0.1`,
`rb_current = 0.08` it returns `20`. -/
theorem C1_soh_formula (rb rbMax : ℚ) (hm : 0 < rbMax) :
    SoHEvaluator rb rbMax = (1 - rb / rbMax) * 100 ∧
    SoHEvaluator rb rbMax = (rbMax - rb) / rbMax * 100 ∧
    SoHEvaluator (8/100) (1/10) = 20 := by
  refine ⟨rfl, ?_, by norm_num [SoHEvaluator]⟩
  have h0 : rbMax ≠ 0 := ne_of_gt hm
  unfold SoHEvaluator
  field_simp

theorem C1_soh_formula_witness :
    SoHEvaluator (8/100) (1/10) = (1 - (8/100) / (1/10)) * 100 ∧
    SoHEvaluator (8/100) (1/10) = ((1/10) - 8/100) / (1/10) * 100 ∧
    SoHEvaluator (8/100) (1/10) = 20 :=
  C1_soh_formula (8/100) (1/10) (by norm_num)

/-- C5: the SoH percentage is not clamped to `[0, 100]`: a current resistance
above the reference yields a negative percentage and a negative current
resistance yields a percentage above `100`, and the frontend (`mapAnalysis`)
passes the backend percentage through to the caller unchanged. -/
theorem C5_soh_unclamped :
    (∀ rb rbMax : ℚ, 0 < rbMax → rbMax < rb → SoHEvaluator rb rbMax < 0) ∧
    (∀ rb rbMax : ℚ, 0 < rbMax → rb < 0 → 100 < SoHEvaluator rb rbMax) ∧
    (∀ v : ℚ, mapAnalysis_sohPercent (some v) = v) ∧
    SoHEvaluator (2/10) (1/10) = -100 ∧ SoHEvaluator (-1/10) (1/10) = 200 := by
  refine ⟨?_, ?_, fun v => rfl, by norm_num [SoHEvaluator], by norm_num [SoHEvaluator]⟩
  · intro rb rbMax hm hlt
    have h1 : 1 < rb / rbMax := (one_lt_div hm).mpr hlt
    unfold SoHEvaluator
    nlinarith
  · intro rb rbMax hm hneg
    have h1 : rb / rbMax < 0 := div_neg_of_neg_of_pos hneg hm
    unfold SoHEvaluator
    nlinarith

theorem C5_soh_unclamped_witness :
    SoHEvaluator (2/10) (1/10) < 0 ∧ 100 < SoHEvaluator (-1/10) (1/10) :=
  ⟨C5_soh_unclamped.1 (2/10) (1/10) (by norm_num) (by norm_num),
   C5_soh_unclamped.2.1 (-1/10) (1/10) (by norm_num) (by norm_num)⟩

/-- C6: boundary identities `SoHEvaluator(rb_max, rb_max) = 0` and
`SoHEvaluator(0, rb_max) = 100`, and for fixed `rb_max > 0` the evaluator is
strictly decreasing in the current bulk resistance. -/
theorem C6_soh_boundaries_monotone (rbMax : ℚ) (hm : 0 < rbMax) :
    SoHEvaluator rbMax rbMax = 0 ∧
    SoHEvaluator 0 rbMax = 100 ∧
    ∀ a b : ℚ, a < b → SoHEvaluator b rbMax < SoHEvaluator a rbMax := by
  have h0 : rbMax ≠ 0 := ne_of_gt hm
  refine ⟨by simp [SoHEvaluator, div_self h0], by simp [SoHEvaluator], ?_⟩
  intro a b hab
  have h1 : a / rbMax < b / rbMax := (div_lt_div_iff_of_pos_right hm).mpr hab
  unfold SoHEvaluator
  nlinarith

theorem C6_soh_boundaries_monotone_witness :
    SoHEvaluator (1/10) (1/10) = 0 ∧
    SoHEvaluator 0 (1/10) = 100 ∧
    SoHEvaluator (8/100) (1/10) < SoHEvaluator (4/100) (1/10) := by
  obtain ⟨h1, h2, h3⟩ := C6_soh_boundaries_monotone (1/10) (by norm_num)
  exact ⟨h1, h2, h3 (4/100) (8/100) (by norm_num)⟩

/-- C7: every frontend entry point that accepts `rb_max` — the SoH query
(`getSoH`), the per-cell EIS upload (`uploadCellEIS`) and the SoH display
component (`SoHDisplay`) — defaults it to `0.1` when the caller omits it, and
passes a caller-supplied value through unchanged. -/
theorem C7_rbMax_defaults :
    getSoH_rbMax none = 1/10 ∧
    uploadCellEIS_rbMax none = 1/10 ∧
    SoHDisplay_rbMax none = 1/10 ∧
    (∀ q : ℚ, getSoH_rbMax (some q) = q ∧ uploadCellEIS_rbMax (some q) = q ∧
      SoHDisplay_rbMax (some q) = q) :=
  ⟨rfl, rfl, rfl, fun _ => ⟨rfl, rfl, rfl⟩⟩

/-- C10: the battery-icon fill width is `clamp01(percent/100)` times the inner
width `34`: it is `0` for any percentage `≤ 0`, the full inner width for any
percentage `≥ 100`, and always lies between the two, even though the
percentage itself is unclamped. -/
theorem C10_battery_fill_clamped (p : ℚ) :
    batteryFillW p = batteryInnerW * clamp01 (p / 100) ∧
    (p ≤ 0 → batteryFillW p = 0) ∧
    (100 ≤ p → batteryFillW p = batteryInnerW) ∧
    0 ≤ batteryFillW p ∧ batteryFillW p ≤ batteryInnerW := by
  have h0 : 0 ≤ clamp01 (p / 100) := le_min (by norm_num) (le_max_left 0 _)
  have h1 : clamp01 (p / 100) ≤ 1 := min_le_left _ _
  refine ⟨rfl, ?_, ?_, ?_, ?_⟩
  · intro hp
    have h : p / 100 ≤ 0 := div_nonpos_of_nonpos_of_nonneg hp (by norm_num)
    simp [batteryFillW, clamp01, max_eq_left h]
  · intro hp
    have h : (1:ℚ) ≤ p / 100 := (le_div_iff₀ (by norm_num)).mpr (by linarith)
    have hmax : max 0 (p / 100) = p / 100 := max_eq_right (le_trans zero_le_one h)
    simp [batteryFillW, clamp01, hmax, min_eq_left h, batteryInnerW]
  · unfold batteryFillW batteryInnerW
    nlinarith
  · unfold batteryFillW batteryInnerW
    nlinarith

theorem C10_battery_fill_clamped_witness :
    batteryFillW (-50) = 0 ∧ batteryFillW 150 = batteryInnerW :=
  ⟨(C10_battery_fill_clamped (-50)).2.1 (by norm_num),
   (C10_battery_fill_clamped 150).2.2.1 (by norm_num)⟩
